import Mathlib

/-!
Formal model of the `min_timer` crate, a fixed-timestep real-time loop engine.

The Rust source is shallowly embedded as follows.

* `Sec` (src/sec.rs) wraps one `f64` scalar meaning seconds.  The scalar is
  modelled as a rational number; IEEE-754 rounding is not modelled.  The one
  place where IEEE special values are observable, the division by a zero
  count in `Stat::dur`, is modelled with the explicit carrier `F64`, which
  separates finite quotients from NaN and the infinities.
* The `u64` counters of `Stat` (src/stat.rs) are natural numbers reduced
  modulo `2 ^ 64` at every increment, matching release-mode wrapping.
* The clock capability (`Now`, src/now.rs) is a stream `c : Nat -> Rat` of
  readings; every `now()` call in the source consumes the next index.  A
  `Timer` (src/timer.rs) stores only its reference point `start`; the
  borrowed clock of the source is the ambient stream, and every operation
  that calls `now()` in the source takes the corresponding reading here,
  while operations that perform no clock read take none.
* `Hrt` (src/hrt.rs) is embedded as a step function over a machine state
  `Mach` holding the heart fields, the application state, the renderer, the
  two local timers of `Hrt::beat`, and the clock read index.  Both `while`
  loops are given explicit fuel.  Application hooks (`Stt::init`,
  `Stt::update`, `Stt::sec`) receive the heart state read-only and report
  the two mutations the public surface allows: whether `stop()` was called,
  and the last `set_lim` argument, if any.  `Render::render` receives the
  heart read-only and returns the new renderer value.
* In src/hrt.rs the profiling guards are created with `let _ = Prf::new(..)`;
  in Rust a value bound to the wildcard pattern is dropped at the end of
  that very statement, so both clock reads of such a guard happen before
  the hook that follows it.  The embedding reproduces this order.
* The `panic!` in `Hrt::start` is modelled with `Except.error`.

Each beat emits a log of events (`Ev`): one `tick` per fixed-update drain
iteration, one `frame` (carrying the interpolated snapshot) per render, and
`secEv`/`refreshEv` for the per-second housekeeping.
-/

/-- Seconds scalar of src/sec.rs, modelled as a rational. -/
abbrev Sec := ℚ

/-- Constant `Sec::ONE` (src/sec.rs). -/
def Sec.ONE : Sec := 1

/-- Constant `Sec::ZERO` used by `Stat::new` (src/stat.rs). -/
def Sec.ZERO : Sec := 0

/-- Modulus of the `u64` counters of `Stat`. -/
def u64M : ℕ := 2 ^ 64

/-- Carrier for the observable outcomes of an `f64` division: a finite
quotient, NaN, or an infinity.  Finite arithmetic is idealized as exact. -/
inductive F64 where
  | fin (val : ℚ)
  | nan
  | inf
  | ninf
deriving DecidableEq

/-- Field contents of `Stat` (src/stat.rs): running total duration, lifetime
event count, current-cycle event count, and cycle counter. -/
structure Stat where
  total : Sec
  count : ℕ
  rate : ℕ
  cycles : ℕ
deriving DecidableEq

/-- Constructor `Stat::new` (src/stat.rs line 41): counters zero, cycles one. -/
def Stat.new : Stat :=
  { total := Sec.ZERO, count := 0, rate := 0, cycles := 1 }

/-- Operator `Stat += Sec` (src/stat.rs lines 82-88): total += d, count += 1,
rate += 1, with `u64` wrapping. -/
def Stat.add_assign (s : Stat) (d : Sec) : Stat :=
  { s with
    total := s.total + d
    count := (s.count + 1) % u64M
    rate := (s.rate + 1) % u64M }

/-- Method `Stat::refresh` (src/stat.rs lines 76-79): rate := 0, cycles += 1. -/
def Stat.refresh (s : Stat) : Stat :=
  { s with rate := 0, cycles := (s.cycles + 1) % u64M }

/-- Method `Stat::dur` (src/stat.rs lines 62-64): `self.total / self.count as f64`.
With a zero count the IEEE division yields NaN when the total is zero and an
infinity otherwise; with a nonzero count it yields the finite quotient. -/
def Stat.dur (s : Stat) : F64 :=
  if s.count = 0 then
    if s.total = 0 then .nan else if 0 < s.total then .inf else .ninf
  else .fin (s.total / (s.count : ℚ))

/-- Method `Stat::avg_rate` (src/stat.rs lines 67-69):
`self.count as f64 / self.cycles as f64`.  In every state reachable with
fewer than `2 ^ 64` refreshes the cycle counter is nonzero, so the division
is by a nonzero finite value and the rational quotient models it. -/
def Stat.avg_rate (s : Stat) : ℚ :=
  (s.count : ℚ) / (s.cycles : ℚ)

/-- One call into the mutating interface of `Stat`. -/
inductive StatOp where
  | acc (d : Sec)
  | refresh
deriving DecidableEq

/-- Replay of a sequence of `Stat` calls. -/
def Stat.run (s : Stat) : List StatOp → Stat
  | [] => s
  | .acc d :: l => (s.add_assign d).run l
  | .refresh :: l => s.refresh.run l

/-- Number of accumulation calls in a sequence. -/
def nAccs : List StatOp → ℕ
  | [] => 0
  | .acc _ :: l => nAccs l + 1
  | .refresh :: l => nAccs l

/-- Number of refresh calls in a sequence. -/
def nRefs : List StatOp → ℕ
  | [] => 0
  | .acc _ :: l => nRefs l
  | .refresh :: l => nRefs l + 1

/-- Sum of the accumulated durations in a sequence. -/
def sumAccs : List StatOp → ℚ
  | [] => 0
  | .acc d :: l => d + sumAccs l
  | .refresh :: l => sumAccs l

theorem Stat.run_append (s : Stat) (a b : List StatOp) :
    s.run (a ++ b) = (s.run a).run b := by
  induction a generalizing s with
  | nil => rfl
  | cons x l ih => cases x <;> simp [Stat.run, ih]

theorem Stat.run_total (s : Stat) (l : List StatOp) :
    (s.run l).total = s.total + sumAccs l := by
  induction l generalizing s with
  | nil => simp [Stat.run, sumAccs]
  | cons x l ih =>
    cases x <;>
      simp [Stat.run, sumAccs, ih, Stat.add_assign, Stat.refresh] <;> ring

theorem Stat.run_count (s : Stat) (l : List StatOp) (h : s.count < u64M) :
    (s.run l).count = (s.count + nAccs l) % u64M := by
  induction l generalizing s with
  | nil => simp [Stat.run, nAccs, Nat.mod_eq_of_lt h]
  | cons x l ih =>
    have hM : 0 < u64M := by norm_num [u64M]
    cases x with
    | acc d =>
      rw [Stat.run, ih (s.add_assign d) (by exact Nat.mod_lt _ hM)]
      show ((s.count + 1) % u64M + nAccs l) % u64M = _
      rw [Nat.mod_add_mod]
      congr 1
      simp [nAccs]
      ring
    | refresh =>
      rw [Stat.run, ih s.refresh h]
      rfl

theorem Stat.run_cycles (s : Stat) (l : List StatOp) (h : s.cycles < u64M) :
    (s.run l).cycles = (s.cycles + nRefs l) % u64M := by
  induction l generalizing s with
  | nil => simp [Stat.run, nRefs, Nat.mod_eq_of_lt h]
  | cons x l ih =>
    have hM : 0 < u64M := by norm_num [u64M]
    cases x with
    | acc d =>
      rw [Stat.run, ih (s.add_assign d) h]
      rfl
    | refresh =>
      rw [Stat.run, ih s.refresh (by exact Nat.mod_lt _ hM)]
      show ((s.cycles + 1) % u64M + nRefs l) % u64M = _
      rw [Nat.mod_add_mod]
      congr 1
      simp [nRefs]
      ring

theorem nAccs_zero_sumAccs (l : List StatOp) (h : nAccs l = 0) : sumAccs l = 0 := by
  induction l with
  | nil => rfl
  | cons x l ih =>
    cases x with
    | acc d => simp [nAccs] at h
    | refresh => exact ih h

theorem nAccs_map_acc (ds : List ℚ) : nAccs (ds.map .acc) = ds.length := by
  induction ds with
  | nil => rfl
  | cons d ds ih => simp [nAccs, ih]

theorem sumAccs_map_acc (ds : List ℚ) : sumAccs (ds.map .acc) = ds.sum := by
  induction ds with
  | nil => rfl
  | cons d ds ih => simp [sumAccs, ih]

/-- Reference point of a stopwatch (src/timer.rs).  The source value also
borrows the clock; here the clock is the ambient reading stream, and every
operation that reads the clock in the source receives that reading as an
argument, while operations that perform no read receive none. -/
structure Timer where
  start : Sec
deriving DecidableEq

/-- Constructor `Timer::new` (src/timer.rs lines 51-56): captures the current
clock reading as the reference. -/
def Timer.new (reading : Sec) : Timer :=
  { start := reading }

/-- Method `Timer::elapsed` (src/timer.rs lines 59-61): a fresh clock reading
minus the stored reference. -/
def Timer.elapsed (t : Timer) (reading : Sec) : Sec :=
  reading - t.start

/-- Operator `Timer -= Sec` (src/timer.rs lines 85-89): adds the subtrahend to
the stored reference point; no clock read occurs (none is taken). -/
def Timer.sub_assign (t : Timer) (rhs : Sec) : Timer :=
  { start := t.start + rhs }

/-- Operator `Timer / f64` (src/timer.rs lines 107-113): `self.elapsed() / rhs`,
where `elapsed` performs a fresh clock read. -/
def Timer.div (t : Timer) (reading : Sec) (rhs : ℚ) : Sec :=
  t.elapsed reading / rhs

/-- Constructor `Prf::new` (src/prf.rs lines 35-40): creates the guard's
internal stopwatch from a fresh clock reading. -/
def Prf.create (reading : Sec) : Timer :=
  Timer.new reading

/-- Destructor `Prf::drop` (src/prf.rs lines 43-47): feeds the stopwatch's
elapsed time (taking a fresh clock reading) into the statistics sink. -/
def Prf.drop (t : Timer) (reading : Sec) (s : Stat) : Stat :=
  s.add_assign (t.elapsed reading)

/-- Rendering limitation `Lim` (src/hrt.rs lines 5-13). -/
inductive Lim where
  | never
  | once
  | always
deriving DecidableEq

/-- Method `Lim::draw` (src/hrt.rs lines 16-22), deciding from the consulted
frame-statistics rate whether this beat renders. -/
def Lim.draw : Lim → ℕ → Bool
  | .never, _ => false
  | .once, rate => rate == 0
  | .always, _ => true

/-- Default `Lim` (src/hrt.rs lines 25-29). -/
def Lim.dflt : Lim := .always

/-- Fields of `Hrt` (src/hrt.rs lines 159-166) besides the borrowed clock,
which is the ambient reading stream. -/
structure HrtS where
  beat : Bool
  lim : Lim
  tar : Sec
  ticks : Stat
  frames : Stat
deriving DecidableEq

/-- Constructor `Hrt::new` (src/hrt.rs lines 170-179): not yet running,
default limit, target stored as the reciprocal of the tick rate. -/
def HrtS.new (tar : ℚ) : HrtS :=
  { beat := false, lim := Lim.dflt, tar := 1 / tar, ticks := Stat.new, frames := Stat.new }

/-- Effect of one `Stt::update` or `Stt::sec` hook call.  The hook sees the
application state and the heart; through the heart's public surface it can
mutate its own state, call `stop()` (second component), and call `set_lim`
(third component: the last argument passed, if any). -/
abbrev Hook (U : Type) := U → HrtS → U × Bool × Option Lim

/-- Applies a hook's reported effects to the heart: `stop()` only ever clears
the running flag (src/hrt.rs lines 242-244), and `set_lim` overwrites the
limit (src/hrt.rs lines 255-257). -/
def applyHook {U : Type} (h : Hook U) (u : U) (s : HrtS) : U × HrtS :=
  let r := h u s
  (r.1, { s with beat := s.beat && !r.2.1, lim := r.2.2.getD s.lim })

/-- Capabilities of the application state `Stt` (src/hrt.rs lines 32-42):
default construction, superposing, scaling, and the three hooks.  `init`
additionally receives the fresh stopwatch made in `Hrt::start`. -/
structure Stt (U : Type) where
  dflt : U
  add : U → U → U
  mul : U → ℚ → U
  init : U → HrtS → Timer → U × Bool × Option Lim
  update : Hook U
  sech : Hook U

/-- Capability of the renderer `Render` (src/hrt.rs lines 45-48): default
construction and the render hook, which sees the heart read-only. -/
structure RenderC (U V : Type) where
  dflt : V
  render : V → HrtS → U → V

/-- Applies the `init` hook's reported effects, as `applyHook` does. -/
def applyInit {U : Type} (h : U → HrtS → Timer → U × Bool × Option Lim)
    (u : U) (s : HrtS) (t : Timer) : U × HrtS :=
  let r := h u s t
  (r.1, { s with beat := s.beat && !r.2.1, lim := r.2.2.getD s.lim })

/-- Machine state of `Hrt::beat` (src/hrt.rs lines 210-237): the heart's
fields, the current and previous application states, the renderer, the
per-second and iteration stopwatches, and the next clock read index. -/
structure Mach (U V : Type) where
  hrt : HrtS
  cur : U
  pre : U
  ren : V
  sec : Timer
  iter : Timer
  idx : ℕ
deriving DecidableEq

/-- Events emitted by a beat: one `tick` per fixed-update drain iteration,
one `frame` (carrying the interpolated snapshot handed to the render hook)
per render, and `secEv`/`refreshEv` for the per-second housekeeping. -/
inductive Ev (U : Type) where
  | tick
  | frame (drawn : U)
  | secEv
  | refreshEv
deriving DecidableEq

/-- Discriminator for `Ev.tick`. -/
def Ev.isTick {U : Type} : Ev U → Bool
  | .tick => true
  | _ => false

/-- Discriminator for `Ev.frame`. -/
def Ev.isFrame {U : Type} : Ev U → Bool
  | .frame _ => true
  | _ => false

/-- Body of one fixed-update drain iteration (src/hrt.rs lines 217-220),
entered after the loop condition held: `let _ = Prf::new(..)` creates the
guard (one clock read) and drops it at the end of that statement (a second
clock read, accumulating into the tick sink) before anything else runs;
then the current state is snapshotted as previous, the `update` hook runs,
and one target duration is consumed from the iteration stopwatch. -/
def drainBody {U V : Type} (c : ℕ → ℚ) (st : Stt U) (m : Mach U V) : Mach U V :=
  let prf := Prf.create (c m.idx)
  let ticks1 := Prf.drop prf (c (m.idx + 1)) m.hrt.ticks
  let m1 := { m with idx := m.idx + 2, hrt := { m.hrt with ticks := ticks1 } }
  let m2 := { m1 with pre := m1.cur }
  let uh := applyHook st.update m2.cur m2.hrt
  { m2 with cur := uh.1, hrt := uh.2, iter := m2.iter.sub_assign m2.hrt.tar }

/-- Fixed-update drain `while iter >= self.tar` (src/hrt.rs lines 216-221),
with explicit fuel.  Each condition check reads the clock once; each
executed iteration emits one `tick` event. -/
def drain {U V : Type} (c : ℕ → ℚ) (st : Stt U) :
    ℕ → Mach U V → Mach U V × List (Ev U)
  | 0, m => (m, [])
  | fuel + 1, m =>
    let r := c m.idx
    let m1 := { m with idx := m.idx + 1 }
    if m.hrt.tar ≤ m1.iter.elapsed r then
      let m2 := drainBody c st m1
      let rec1 := drain c st fuel m2
      (rec1.1, .tick :: rec1.2)
    else (m1, [])

/-- Conditional render (src/hrt.rs lines 223-228): the limit policy consults
the frame-statistics rate; if it permits, the frame guard is created and
immediately dropped (two clock reads, accumulating into the frame sink),
the remainder is computed from a fresh clock read as
`(iter / tar.as_f64()).as_f64()`, the snapshot is interpolated as
`pre * (1 - rem) + cur * rem`, and the render hook is invoked with it. -/
def renderPhase {U V : Type} (c : ℕ → ℚ) (st : Stt U) (rn : RenderC U V)
    (m : Mach U V) : Mach U V × List (Ev U) :=
  if m.hrt.lim.draw m.hrt.frames.rate then
    let prf := Prf.create (c m.idx)
    let frames1 := Prf.drop prf (c (m.idx + 1)) m.hrt.frames
    let rem := Timer.div m.iter (c (m.idx + 2)) m.hrt.tar
    let drawn := st.add (st.mul m.pre (1 - rem)) (st.mul m.cur rem)
    let hrt1 := { m.hrt with frames := frames1 }
    let ren1 := rn.render m.ren hrt1 drawn
    ({ m with idx := m.idx + 3, hrt := hrt1, ren := ren1 }, [.frame drawn])
  else (m, [])

/-- Per-second housekeeping (src/hrt.rs lines 230-235): the condition
`sec >= Sec::ONE` reads the clock once; when it holds, the second stopwatch
is rebased by exactly one second, the `sec` hook runs, and both statistics
sinks are refreshed. -/
def secPhase {U V : Type} (c : ℕ → ℚ) (st : Stt U) (m : Mach U V) :
    Mach U V × List (Ev U) :=
  let r := c m.idx
  let m1 := { m with idx := m.idx + 1 }
  if Sec.ONE ≤ m1.sec.elapsed r then
    let sec1 := m1.sec.sub_assign Sec.ONE
    let sh := applyHook st.sech m1.cur m1.hrt
    let hrt2 := { sh.2 with ticks := sh.2.ticks.refresh, frames := sh.2.frames.refresh }
    ({ m1 with sec := sec1, cur := sh.1, hrt := hrt2 }, [.secEv, .refreshEv])
  else (m1, [])

/-- One iteration of the beat loop body (src/hrt.rs lines 216-235): the
fixed-update drain, then the conditional render, then the per-second
housekeeping. -/
def oneBeat {U V : Type} (c : ℕ → ℚ) (st : Stt U) (rn : RenderC U V)
    (dfuel : ℕ) (m : Mach U V) : Mach U V × List (Ev U) :=
  let d := drain c st dfuel m
  let r := renderPhase c st rn d.1
  let s := secPhase c st r.1
  (s.1, d.2 ++ r.2 ++ s.2)

/-- The loop `while self.beat` (src/hrt.rs line 215), with explicit fuel:
the flag is checked before every iteration. -/
def beatLoop {U V : Type} (c : ℕ → ℚ) (st : Stt U) (rn : RenderC U V)
    (dfuel : ℕ) : ℕ → Mach U V → Mach U V × List (Ev U)
  | 0, m => (m, [])
  | fuel + 1, m =>
    if m.hrt.beat then
      let b := oneBeat c st rn dfuel m
      let rec1 := beatLoop c st rn dfuel fuel b.1
      (rec1.1, b.2 ++ rec1.2)
    else (m, [])

/-- Entry of `Hrt::beat` (src/hrt.rs lines 210-214): the previous-state
snapshot starts as the default state, then the per-second and iteration
stopwatches are created (one clock read each), and the loop begins. -/
def beatEntry {U V : Type} (c : ℕ → ℚ) (st : Stt U) (s : HrtS) (cur : U)
    (ren : V) (idx : ℕ) : Mach U V :=
  { hrt := s, cur := cur, pre := st.dflt, ren := ren
    sec := Timer.new (c idx), iter := Timer.new (c (idx + 1)), idx := idx + 2 }

/-- Method `Hrt::start` (src/hrt.rs lines 196-208): panics (modelled as
`Except.error`) when already running; otherwise sets the running flag,
creates a fresh stopwatch for `init`, default-constructs the renderer and
the state, invokes the `init` hook, and enters the beat loop. -/
def startFn {U V : Type} (c : ℕ → ℚ) (st : Stt U) (rn : RenderC U V)
    (dfuel lfuel : ℕ) (s : HrtS) (idx : ℕ) :
    Except String (Mach U V × List (Ev U)) :=
  if s.beat then .error "Already running!"
  else
    let s1 := { s with beat := true }
    let initTimer := Timer.new (c idx)
    let ren := rn.dflt
    let ih := applyInit st.init st.dflt s1 initTimer
    .ok (beatLoop c st rn dfuel lfuel (beatEntry c st ih.2 ih.1 ren (idx + 1)))

/-- Log of a `startFn` outcome (empty when the start panicked). -/
def startLog {U V : Type} : Except String (Mach U V × List (Ev U)) → List (Ev U)
  | .ok p => p.2
  | .error _ => []

/-- C6 counterexample: after one accumulation and one refresh (so `refresh`
has been called `k = 1` time in total), the claim predicts
`avg_rate() = count / k = 1 / 1 = 1`, but the code yields `1 / 2`, because
`Stat::new` starts the cycle counter at one and `refresh` increments it. -/
theorem stat_avg_rate_counterexample :
    ((Stat.new.add_assign 1).refresh).avg_rate = 1 / 2 ∧
    (((Stat.new.add_assign 1).refresh).count : ℚ) / (1 : ℚ) = 1 ∧
    ¬ ((Stat.new.add_assign 1).refresh).avg_rate =
        (((Stat.new.add_assign 1).refresh).count : ℚ) / (1 : ℚ) := by
  norm_num [Stat.new, Stat.add_assign, Stat.refresh, Stat.avg_rate, u64M]

theorem sumAccs_append (a b : List StatOp) :
    sumAccs (a ++ b) = sumAccs a + sumAccs b := by
  induction a with
  | nil => simp [sumAccs]
  | cons x l ih => cases x <;> simp [sumAccs, ih] <;> ring

/-- C6 (amended): for a freshly created `Stat`, after `n` accumulations of
durations `d1..dn` (with `n` positive and below the `u64` range) followed by
one `refresh()`, `count()` is `n`, `rate()` is `0`, and `dur()` is the
finite quotient `(d1 + .. + dn) / n`; and after `refresh()` has been called
`k` times in total (any interleaving, `k + 1` below the `u64` range),
`avg_rate()` is the lifetime count divided by `k + 1`, because the cycle
counter starts at one and each refresh increments it while leaving total
and count untouched. -/
theorem stat_accumulate_refresh_spec (ds : List ℚ) (ops : List StatOp)
    (hn : ds.length < u64M) (hn0 : ds ≠ []) (hk : nRefs ops + 1 < u64M) :
    ((Stat.new.run (ds.map .acc ++ [.refresh])).count = ds.length ∧
      (Stat.new.run (ds.map .acc ++ [.refresh])).rate = 0 ∧
      (Stat.new.run (ds.map .acc ++ [.refresh])).dur =
        .fin (ds.sum / (ds.length : ℚ))) ∧
    (Stat.new.run ops).avg_rate =
      ((Stat.new.run ops).count : ℚ) / ((nRefs ops : ℚ) + 1) ∧
    (∀ s : Stat, s.refresh.rate = 0 ∧ s.refresh.total = s.total ∧
      s.refresh.count = s.count) := by
  have hcount : (Stat.new.run (ds.map .acc ++ [.refresh])).count = ds.length := by
    rw [Stat.run_append]
    show ((Stat.new.run (ds.map .acc)).refresh).count = ds.length
    rw [show ∀ s : Stat, s.refresh.count = s.count from fun _ => rfl]
    rw [Stat.run_count Stat.new _ (by norm_num [Stat.new, u64M]),
      nAccs_map_acc]
    show (0 + ds.length) % u64M = ds.length
    rw [Nat.zero_add, Nat.mod_eq_of_lt hn]
  have htotal : (Stat.new.run (ds.map .acc ++ [.refresh])).total = ds.sum := by
    rw [Stat.run_total]
    show Sec.ZERO + sumAccs (ds.map .acc ++ [.refresh]) = ds.sum
    rw [sumAccs_append, sumAccs_map_acc]
    show Sec.ZERO + (ds.sum + sumAccs []) = ds.sum
    simp [Sec.ZERO, sumAccs]
  refine ⟨⟨hcount, ?_, ?_⟩, ?_, fun s => ⟨rfl, rfl, rfl⟩⟩
  · rw [Stat.run_append]
    rfl
  · rw [Stat.dur, if_neg (by rw [hcount]; simpa using hn0), htotal, hcount]
  · rw [Stat.avg_rate, Stat.run_cycles Stat.new ops (by norm_num [Stat.new, u64M])]
    show ((Stat.new.run ops).count : ℚ) / (((1 + nRefs ops) % u64M : ℕ) : ℚ) = _
    rw [Nat.add_comm 1 (nRefs ops), Nat.mod_eq_of_lt hk]
    push_cast
    ring_nf

/-- C6 witness: the amended statement evaluated at two accumulations of 2 s
and 4 s then a refresh, and at the call sequence accumulate-then-refresh. -/
theorem stat_accumulate_refresh_spec_witness :
    ((Stat.new.run ([2, 4].map .acc ++ [.refresh])).count = 2 ∧
      (Stat.new.run ([2, 4].map .acc ++ [.refresh])).rate = 0 ∧
      (Stat.new.run ([2, 4].map .acc ++ [.refresh])).dur =
        .fin (((2 : ℚ) + 4) / 2)) ∧
    (Stat.new.run [.acc 1, .refresh]).avg_rate =
      ((Stat.new.run [.acc 1, .refresh]).count : ℚ) /
        ((nRefs [.acc 1, .refresh] : ℚ) + 1) := by
  have h1 := stat_accumulate_refresh_spec [2, 4] [.acc 1, .refresh]
    (by norm_num [u64M]) (by simp) (by norm_num [nRefs, u64M])
  refine ⟨⟨h1.1.1, h1.1.2.1, ?_⟩, h1.2.1⟩
  rw [h1.1.2.2]
  norm_num

/-- C8: on statistics reachable from `Stat::new` by fewer than `2 ^ 64`
accumulations, a zero lifetime count forces a zero total, so `dur()` is the
IEEE quotient `0.0 / 0.0 = NaN`: a well-defined sentinel, not a crash (the
model, like Rust `f64` division, is total) and not a misleading finite
value. -/
theorem stat_dur_zero_count_nan (ops : List StatOp) (h : nAccs ops < u64M)
    (h0 : (Stat.new.run ops).count = 0) :
    (Stat.new.run ops).dur = F64.nan := by
  have hc := Stat.run_count Stat.new ops (by norm_num [Stat.new, u64M])
  rw [h0] at hc
  have ha : nAccs ops = 0 := by
    have := hc.symm
    rwa [show (Stat.new.count + nAccs ops) % u64M = nAccs ops by
      show (0 + nAccs ops) % u64M = nAccs ops
      rw [Nat.zero_add, Nat.mod_eq_of_lt h]] at this
  have ht : (Stat.new.run ops).total = 0 := by
    rw [Stat.run_total, nAccs_zero_sumAccs ops ha]
    simp [Stat.new, Sec.ZERO]
  rw [Stat.dur, if_pos h0, if_pos ht]

/-- C8 witness: the zero-count sentinel evaluated after a lone refresh. -/
theorem stat_dur_zero_count_nan_witness :
    (Stat.new.run [.refresh]).dur = F64.nan :=
  stat_dur_zero_count_nan [.refresh] (by norm_num [nAccs, u64M]) (by decide)

/-- C9: rebasing a `Timer` by `d` via `-=` adds `d` to the stored reference
point, which is the timer's only state, and takes no clock reading; and
`elapsed()` is always the given fresh reading minus the reference, so at
the same reading the elapsed time after the rebase is exactly `d` less
than before. -/
theorem timer_sub_assign_spec (t : Timer) (d reading : Sec) :
    (t.sub_assign d).start = t.start + d ∧
    t.elapsed reading = reading - t.start ∧
    (t.sub_assign d).elapsed reading = t.elapsed reading - d := by
  refine ⟨rfl, rfl, ?_⟩
  show reading - (t.start + d) = (reading - t.start) - d
  ring

theorem applyHook_keeps {U : Type} (h : Hook U) (u : U) (s : HrtS) :
    (applyHook h u s).2.tar = s.tar ∧ (applyHook h u s).2.ticks = s.ticks ∧
    (applyHook h u s).2.frames = s.frames :=
  ⟨rfl, rfl, rfl⟩

theorem applyHook_beat_false {U : Type} (h : Hook U) (u : U) (s : HrtS)
    (hb : s.beat = false) : (applyHook h u s).2.beat = false := by
  simp [applyHook, hb]

theorem drainBody_keeps {U V : Type} (c : ℕ → ℚ) (st : Stt U) (m : Mach U V) :
    (drainBody c st m).hrt.tar = m.hrt.tar ∧
    (drainBody c st m).hrt.frames = m.hrt.frames ∧
    (drainBody c st m).sec = m.sec ∧
    (drainBody c st m).iter.start = m.iter.start + m.hrt.tar :=
  ⟨rfl, rfl, rfl, rfl⟩

theorem drainBody_beat_false {U V : Type} (c : ℕ → ℚ) (st : Stt U)
    (m : Mach U V) (hb : m.hrt.beat = false) :
    (drainBody c st m).hrt.beat = false := by
  show (applyHook st.update _ _).2.beat = false
  exact applyHook_beat_false _ _ _ hb

theorem drainBody_stops {U V : Type} (c : ℕ → ℚ) (st : Stt U) (m : Mach U V)
    (hstop : ∀ u s, (st.update u s).2.1 = true) :
    (drainBody c st m).hrt.beat = false := by
  show (applyHook st.update _ _).2.beat = false
  simp [applyHook, hstop]

theorem drain_keeps {U V : Type} (c : ℕ → ℚ) (st : Stt U) (fuel : ℕ)
    (m : Mach U V) :
    (drain c st fuel m).1.hrt.tar = m.hrt.tar ∧
    (drain c st fuel m).1.hrt.frames = m.hrt.frames ∧
    (drain c st fuel m).1.sec = m.sec ∧
    ∀ e ∈ (drain c st fuel m).2, e = Ev.tick := by
  induction fuel generalizing m with
  | zero => exact ⟨rfl, rfl, rfl, by simp [drain]⟩
  | succ fuel ih =>
    by_cases hcond :
        m.hrt.tar ≤ Timer.elapsed (Mach.iter { m with idx := m.idx + 1 }) (c m.idx)
    · obtain ⟨h1, h2, h3, h4⟩ := ih (drainBody c st { m with idx := m.idx + 1 })
      obtain ⟨k1, k2, k3, _⟩ := drainBody_keeps c st
        (U := U) (V := V) { m with idx := m.idx + 1 }
      refine ⟨?_, ?_, ?_, ?_⟩ <;> simp only [drain, if_pos hcond]
      · rw [h1, k1]
      · rw [h2, k2]
      · rw [h3, k3]
      · intro e he
        rcases List.mem_cons.1 he with h | h
        · exact h
        · exact h4 e h
    · simp [drain, if_neg hcond]

theorem drain_beat_false {U V : Type} (c : ℕ → ℚ) (st : Stt U) (fuel : ℕ)
    (m : Mach U V) (hb : m.hrt.beat = false) :
    (drain c st fuel m).1.hrt.beat = false := by
  induction fuel generalizing m with
  | zero => simpa [drain] using hb
  | succ fuel ih =>
    by_cases hcond :
        m.hrt.tar ≤ Timer.elapsed (Mach.iter { m with idx := m.idx + 1 }) (c m.idx)
    · simp only [drain, if_pos hcond]
      exact ih _ (drainBody_beat_false c st _ hb)
    · simpa [drain, if_neg hcond] using hb

theorem renderPhase_keeps {U V : Type} (c : ℕ → ℚ) (st : Stt U)
    (rn : RenderC U V) (m : Mach U V) :
    (renderPhase c st rn m).1.iter = m.iter ∧
    (renderPhase c st rn m).1.sec = m.sec ∧
    (renderPhase c st rn m).1.hrt.beat = m.hrt.beat ∧
    (renderPhase c st rn m).1.hrt.lim = m.hrt.lim ∧
    (renderPhase c st rn m).1.hrt.tar = m.hrt.tar ∧
    (renderPhase c st rn m).1.hrt.ticks = m.hrt.ticks ∧
    (renderPhase c st rn m).1.cur = m.cur ∧
    (renderPhase c st rn m).1.pre = m.pre := by
  unfold renderPhase
  split <;> exact ⟨rfl, rfl, rfl, rfl, rfl, rfl, rfl, rfl⟩

theorem renderPhase_pos {U V : Type} (c : ℕ → ℚ) (st : Stt U)
    (rn : RenderC U V) (m : Mach U V)
    (h : m.hrt.lim.draw m.hrt.frames.rate = true) :
    (renderPhase c st rn m).2 =
      [Ev.frame (st.add
        (st.mul m.pre (1 - Timer.div m.iter (c (m.idx + 2)) m.hrt.tar))
        (st.mul m.cur (Timer.div m.iter (c (m.idx + 2)) m.hrt.tar)))] ∧
    (renderPhase c st rn m).1.hrt.frames =
      m.hrt.frames.add_assign (c (m.idx + 1) - c m.idx) := by
  rw [renderPhase, if_pos h]
  exact ⟨rfl, rfl⟩

theorem renderPhase_neg {U V : Type} (c : ℕ → ℚ) (st : Stt U)
    (rn : RenderC U V) (m : Mach U V)
    (h : m.hrt.lim.draw m.hrt.frames.rate = false) :
    (renderPhase c st rn m).2 = [] ∧ (renderPhase c st rn m).1.hrt = m.hrt := by
  rw [renderPhase, if_neg (by simp [h])]
  exact ⟨rfl, rfl⟩

theorem secPhase_keeps {U V : Type} (c : ℕ → ℚ) (st : Stt U) (m : Mach U V) :
    (secPhase c st m).1.iter = m.iter ∧
    ((secPhase c st m).2 = [] ∨ (secPhase c st m).2 = [Ev.secEv, Ev.refreshEv]) := by
  simp only [secPhase]
  split
  · exact ⟨rfl, Or.inr rfl⟩
  · exact ⟨rfl, Or.inl rfl⟩

theorem secPhase_beat_false {U V : Type} (c : ℕ → ℚ) (st : Stt U)
    (m : Mach U V) (hb : m.hrt.beat = false) :
    (secPhase c st m).1.hrt.beat = false := by
  simp only [secPhase]
  split
  · show (applyHook st.sech _ _).2.beat = false
    exact applyHook_beat_false _ _ _ hb
  · exact hb

theorem secPhase_pos {U V : Type} (c : ℕ → ℚ) (st : Stt U) (m : Mach U V)
    (h : Sec.ONE ≤ Timer.elapsed m.sec (c m.idx)) :
    (secPhase c st m).2 = [Ev.secEv, Ev.refreshEv] := by
  rw [secPhase, if_pos h]

theorem beatLoop_not_beat {U V : Type} (c : ℕ → ℚ) (st : Stt U)
    (rn : RenderC U V) (dfuel lfuel : ℕ) (m : Mach U V)
    (hb : m.hrt.beat = false) :
    beatLoop c st rn dfuel lfuel m = (m, []) := by
  cases lfuel with
  | zero => rfl
  | succ lfuel => rw [beatLoop, if_neg (by simp [hb])]

theorem drain_frozen {U V : Type} (c : ℕ → ℚ) (st : Stt U) (t r tar : ℚ)
    (hc : ∀ j, c j = t) (htar : 0 < tar) (hr0 : 0 ≤ r) (hr1 : r < tar) :
    ∀ (k fuel : ℕ) (m : Mach U V), m.hrt.tar = tar →
      t - m.iter.start = k * tar + r → k < fuel →
      (drain c st fuel m).2 = List.replicate k Ev.tick ∧
      (drain c st fuel m).1.iter.start = m.iter.start + k * tar := by
  intro k
  induction k with
  | zero =>
    intro fuel m hmt hadv hfuel
    obtain ⟨fuel, rfl⟩ : ∃ f, fuel = f + 1 := ⟨fuel - 1, by omega⟩
    have hcond : ¬ m.hrt.tar ≤
        Timer.elapsed (Mach.iter { m with idx := m.idx + 1 }) (c m.idx) := by
      rw [hc]
      show ¬ m.hrt.tar ≤ t - m.iter.start
      rw [hmt, hadv]
      push_cast
      linarith
    simp [drain, if_neg hcond]
  | succ k ih =>
    intro fuel m hmt hadv hfuel
    obtain ⟨fuel, rfl⟩ : ∃ f, fuel = f + 1 := ⟨fuel - 1, by omega⟩
    have hknn : (0 : ℚ) ≤ (k : ℚ) * tar := mul_nonneg (by positivity) htar.le
    have hcond : m.hrt.tar ≤
        Timer.elapsed (Mach.iter { m with idx := m.idx + 1 }) (c m.idx) := by
      rw [hc]
      show m.hrt.tar ≤ t - m.iter.start
      rw [hmt, hadv]
      push_cast
      linarith
    have hbody := drainBody_keeps c st (U := U) (V := V) { m with idx := m.idx + 1 }
    have hmt2 : (drainBody c st { m with idx := m.idx + 1 }).hrt.tar = tar := by
      rw [hbody.1]; exact hmt
    have hadv2 : t - (drainBody c st { m with idx := m.idx + 1 }).iter.start =
        k * tar + r := by
      rw [hbody.2.2.2]
      show t - (m.iter.start + m.hrt.tar) = _
      rw [hmt]
      push_cast at hadv
      linarith
    obtain ⟨hlog, hstart⟩ := ih fuel (drainBody c st { m with idx := m.idx + 1 })
      hmt2 hadv2 (by omega)
    constructor
    · simp only [drain, if_pos hcond]
      rw [List.replicate_succ, hlog]
    · simp only [drain, if_pos hcond]
      rw [hstart, hbody.2.2.2]
      show m.iter.start + m.hrt.tar + (k : ℚ) * tar = _
      rw [hmt]
      push_cast
      ring

theorem renderPhase_countP_tick {U V : Type} (c : ℕ → ℚ) (st : Stt U)
    (rn : RenderC U V) (m : Mach U V) :
    (renderPhase c st rn m).2.countP Ev.isTick = 0 := by
  unfold renderPhase
  split
  · rfl
  · rfl

theorem secPhase_countP_tick {U V : Type} (c : ℕ → ℚ) (st : Stt U)
    (m : Mach U V) : (secPhase c st m).2.countP Ev.isTick = 0 := by
  rcases (secPhase_keeps c st m).2 with h | h <;> rw [h] <;> rfl

/-- C1: with the clock frozen at `t` during the beat and `t` exactly three
target tick durations past the iteration stopwatch's reference, the beat
emits exactly three `tick` events (one per `update` invocation) and they
are the first events of the beat, so all three precede any render; the
drain advances the stopwatch's reference by one target duration per
iteration, three in total; and after the drain the remainder, the
iteration stopwatch's elapsed time divided by the target tick duration, is
exactly `0`. -/
theorem hrt_drain_three_ticks {U V : Type} (c : ℕ → ℚ) (st : Stt U)
    (rn : RenderC U V) (dfuel : ℕ) (m : Mach U V) (t : ℚ)
    (hc : ∀ j, c j = t) (htar : 0 < m.hrt.tar)
    (hadv : t - m.iter.start = 3 * m.hrt.tar) (hfuel : 3 < dfuel) :
    (oneBeat c st rn dfuel m).2.countP Ev.isTick = 3 ∧
    (oneBeat c st rn dfuel m).2.take 3 = List.replicate 3 Ev.tick ∧
    (oneBeat c st rn dfuel m).1.iter.start = m.iter.start + 3 * m.hrt.tar ∧
    Timer.elapsed (oneBeat c st rn dfuel m).1.iter t / m.hrt.tar = 0 := by
  have h3 : t - m.iter.start = ((3 : ℕ) : ℚ) * m.hrt.tar + 0 := by
    push_cast
    linarith
  obtain ⟨hlog, hstart⟩ := drain_frozen c st t 0 m.hrt.tar hc htar le_rfl htar
    3 dfuel m rfl h3 hfuel
  have hrk := renderPhase_keeps c st rn (drain c st dfuel m).1
  have hsk := secPhase_keeps c st (renderPhase c st rn (drain c st dfuel m).1).1
  have hiter : (oneBeat c st rn dfuel m).1.iter = (drain c st dfuel m).1.iter := by
    show (secPhase c st (renderPhase c st rn (drain c st dfuel m).1).1).1.iter = _
    rw [hsk.1, hrk.1]
  have hlog2 : (oneBeat c st rn dfuel m).2 =
      (drain c st dfuel m).2 ++
        ((renderPhase c st rn (drain c st dfuel m).1).2 ++
          (secPhase c st (renderPhase c st rn (drain c st dfuel m).1).1).2) := by
    show (drain c st dfuel m).2 ++ (renderPhase c st rn (drain c st dfuel m).1).2 ++
        (secPhase c st (renderPhase c st rn (drain c st dfuel m).1).1).2 = _
    rw [List.append_assoc]
  refine ⟨?_, ?_, ?_, ?_⟩
  · rw [hlog2, List.countP_append, List.countP_append, hlog,
      renderPhase_countP_tick, secPhase_countP_tick]
    rfl
  · rw [hlog2, hlog]
    exact List.take_left' (by simp)
  · rw [hiter, hstart]
    push_cast
    ring
  · have hz : Timer.elapsed (drain c st dfuel m).1.iter t = 0 := by
      show t - (drain c st dfuel m).1.iter.start = 0
      rw [hstart]
      push_cast
      linarith
    rw [hiter, hz]
    exact zero_div _

/-- State capability instance over the trivial state, with hooks that do
nothing: neither stop nor a limit change is issued. -/
def stU : Stt Unit :=
  { dflt := (), add := fun _ _ => (), mul := fun _ _ => ()
    init := fun _ _ _ => ((), false, none)
    update := fun _ _ => ((), false, none)
    sech := fun _ _ => ((), false, none) }

/-- Render capability instance over the trivial state and renderer. -/
def rnU : RenderC Unit Unit :=
  { dflt := (), render := fun _ _ _ => () }

/-- Machine in mid-loop with target duration 1, both stopwatch references at
0, clean statistics, and the default (always) limit. -/
def mU : Mach Unit Unit :=
  { hrt := { beat := true, lim := Lim.dflt, tar := 1,
             ticks := Stat.new, frames := Stat.new }
    cur := (), pre := (), ren := ()
    sec := Timer.new 0, iter := Timer.new 0, idx := 0 }

/-- C1 witness: the theorem evaluated with a clock frozen at 3, target tick
duration 1, and the iteration stopwatch's reference at 0. -/
theorem hrt_drain_three_ticks_witness :
    (oneBeat (fun _ => (3 : ℚ)) stU rnU 4 mU).2.countP Ev.isTick = 3 ∧
    (oneBeat (fun _ => (3 : ℚ)) stU rnU 4 mU).2.take 3 =
      List.replicate 3 Ev.tick ∧
    (oneBeat (fun _ => (3 : ℚ)) stU rnU 4 mU).1.iter.start =
      mU.iter.start + 3 * mU.hrt.tar ∧
    Timer.elapsed (oneBeat (fun _ => (3 : ℚ)) stU rnU 4 mU).1.iter 3 /
      mU.hrt.tar = 0 :=
  hrt_drain_three_ticks (fun _ => (3 : ℚ)) stU rnU 4 mU 3 (fun _ => rfl)
    (by norm_num [mU]) (by norm_num [mU, Timer.new]) (by norm_num)

/-- C3 (amended): when a beat renders, the remainder handed to the
interpolation is the iteration stopwatch's elapsed time at a fresh clock
reading divided by the target tick duration, and the snapshot passed to
the render hook is `previous * (1 - remainder) + current * remainder`
computed with the state's own add and scale operations; the remainder lies
in `[0, 1)` provided the clock does not advance between the drain's exit
check and the remainder computation (here: a clock frozen at `t` for the
beat), but not in general, since the remainder rereads the clock. -/
theorem render_remainder_interpolation {U V : Type} (c : ℕ → ℚ) (st : Stt U)
    (rn : RenderC U V) (dfuel : ℕ) (m : Mach U V) (t r : ℚ) (k : ℕ)
    (hc : ∀ j, c j = t) (htar : 0 < m.hrt.tar)
    (hadv : t - m.iter.start = k * m.hrt.tar + r) (hr0 : 0 ≤ r)
    (hr1 : r < m.hrt.tar) (hfuel : k < dfuel)
    (hdraw : (drain c st dfuel m).1.hrt.lim.draw
      (drain c st dfuel m).1.hrt.frames.rate = true) :
    (renderPhase c st rn (drain c st dfuel m).1).2 =
      [Ev.frame (st.add
        (st.mul (drain c st dfuel m).1.pre (1 - r / m.hrt.tar))
        (st.mul (drain c st dfuel m).1.cur (r / m.hrt.tar)))] ∧
    Timer.div (drain c st dfuel m).1.iter t m.hrt.tar = r / m.hrt.tar ∧
    0 ≤ r / m.hrt.tar ∧ r / m.hrt.tar < 1 := by
  obtain ⟨_, hstart⟩ := drain_frozen c st t r m.hrt.tar hc htar hr0 hr1
    k dfuel m rfl (by linarith) hfuel
  have htar2 : (drain c st dfuel m).1.hrt.tar = m.hrt.tar :=
    (drain_keeps c st dfuel m).1
  have hdiv : ∀ reading, Timer.div (drain c st dfuel m).1.iter reading
      (drain c st dfuel m).1.hrt.tar = (reading - m.iter.start - k * m.hrt.tar) /
        m.hrt.tar := by
    intro reading
    rw [Timer.div, htar2]
    show (reading - (drain c st dfuel m).1.iter.start) / m.hrt.tar = _
    rw [hstart]
    ring_nf
  have hrem : Timer.div (drain c st dfuel m).1.iter t
      (drain c st dfuel m).1.hrt.tar = r / m.hrt.tar := by
    rw [hdiv t]
    congr 1
    linarith
  refine ⟨?_, ?_, div_nonneg hr0 htar.le, (div_lt_one htar).2 hr1⟩
  · rw [(renderPhase_pos c st rn (drain c st dfuel m).1 hdraw).1, hc, hrem]
  · rw [htar2] at hrem
    exact hrem

/-- C3 witness: the amended statement with a clock frozen at 5/2, target
tick duration 1, reference 0: two ticks are drained and the remainder is
one half. -/
theorem render_remainder_interpolation_witness :
    (renderPhase (fun _ => (5 / 2 : ℚ)) stU rnU
        (drain (fun _ => (5 / 2 : ℚ)) stU 3 mU).1).2 =
      [Ev.frame (stU.add
        (stU.mul (drain (fun _ => (5 / 2 : ℚ)) stU 3 mU).1.pre
          (1 - (1 / 2 : ℚ) / mU.hrt.tar))
        (stU.mul (drain (fun _ => (5 / 2 : ℚ)) stU 3 mU).1.cur
          ((1 / 2 : ℚ) / mU.hrt.tar)))] ∧
    Timer.div (drain (fun _ => (5 / 2 : ℚ)) stU 3 mU).1.iter (5 / 2)
      mU.hrt.tar = (1 / 2 : ℚ) / mU.hrt.tar ∧
    0 ≤ (1 / 2 : ℚ) / mU.hrt.tar ∧ (1 / 2 : ℚ) / mU.hrt.tar < 1 :=
  render_remainder_interpolation (fun _ => (5 / 2 : ℚ)) stU rnU 3 mU
    (5 / 2) (1 / 2) 2 (fun _ => rfl) (by norm_num [mU])
    (by norm_num [mU, Timer.new]) (by norm_num) (by norm_num [mU])
    (by norm_num)
    (by norm_num [drain, drainBody, mU, stU, applyHook, Timer.new,
      Timer.elapsed, Timer.sub_assign, Prf.create, Prf.drop, Stat.add_assign,
      Stat.new, Lim.dflt, Lim.draw, u64M])

/-- Clock for the remainder counterexample: nondecreasing readings, one half
for the first three reads, then 17/10 once the render phase rereads it. -/
def cR : ℕ → ℚ := fun j => if j ≤ 2 then 1 / 2 else 17 / 10

/-- State capability over a rational scalar with honest add/scale and inert
hooks: the frame payload then equals `pre * (1 - rem) + cur * rem`. -/
def stR : Stt ℚ :=
  { dflt := 0, add := fun a b => a + b, mul := fun a x => a * x
    init := fun u _ _ => (u, false, none)
    update := fun u _ => (u, false, none)
    sech := fun u _ => (u, false, none) }

/-- Render capability over the rational scalar state. -/
def rnR : RenderC ℚ Unit :=
  { dflt := (), render := fun v _ _ => v }

/-- Machine for the remainder counterexample: previous state 0 and current
state 1, so the interpolated payload is exactly the remainder. -/
def mR : Mach ℚ Unit :=
  { hrt := { beat := true, lim := .always, tar := 1,
             ticks := Stat.new, frames := Stat.new }
    cur := 1, pre := 0, ren := ()
    sec := Timer.new 1, iter := Timer.new 0, idx := 0 }

/-- C3 counterexample: a beat under a nondecreasing clock whose drain exits
with elapsed one half (less than the target 1), yet the remainder is
computed from a fresh reading taken after the frame guard's two reads, by
which time the clock shows 17/10; the rendered beat's remainder is 17/10,
which is not in `[0, 1)`, refuting the claimed interval. -/
theorem render_remainder_counterexample :
    (oneBeat cR stR rnR 1 mR).2 = [Ev.frame (17 / 10 : ℚ)] ∧
    Timer.div (oneBeat cR stR rnR 1 mR).1.iter (cR 3) mR.hrt.tar = 17 / 10 ∧
    ¬ Timer.div (oneBeat cR stR rnR 1 mR).1.iter (cR 3) mR.hrt.tar < 1 := by
  norm_num [oneBeat, drain, drainBody, renderPhase, secPhase, cR, stR, rnR,
    mR, Timer.new, Timer.elapsed, Timer.div, Timer.sub_assign, Lim.draw,
    Stat.new, Prf.create, Prf.drop, Stat.add_assign, applyHook, Sec.ONE, u64M]

/-- Clock for the profiling-guard run: the first three readings are 1, all
later ones are 6, so five seconds of wall time pass across the first
`update` hook (between read 2, the guard's drop, and read 3, the next
drain check). -/
def cB : ℕ → ℚ := fun j => if j ≤ 2 then 1 else 6

/-- C2: evaluation at the failing input.  Each drain iteration feeds exactly
one accumulation into the tick sink (six iterations, count 6), but because
`let _ = Prf::new(..)` drops the guard immediately, both of its clock reads
happen before the `update` hook, and the accumulated durations are the
gaps between adjacent guard reads: all zero here, so the recorded total
tick time is 0 s even though the clock advanced five seconds across the
first hook (reading 2 to reading 3).  The claimed hook-spanning durations
would have summed to 5 s. -/
theorem prf_guard_zero_duration :
    (drain cB stU 10 mU).1.hrt.ticks.count = 6 ∧
    (drain cB stU 10 mU).1.hrt.ticks.total = 0 ∧
    cB 3 - cB 2 = 5 := by
  norm_num [drain, drainBody, cB, stU, mU, Timer.new, Timer.elapsed,
    Timer.sub_assign, Prf.create, Prf.drop, Stat.add_assign, Stat.new,
    Sec.ZERO, applyHook, u64M]

theorem oneBeat_no_drain_render {U V : Type} (c : ℕ → ℚ) (st : Stt U)
    (rn : RenderC U V) (dfuel : ℕ) (m : Mach U V)
    (hno : ¬ m.hrt.tar ≤ Timer.elapsed m.iter (c m.idx)) (hdf : 0 < dfuel)
    (hdraw : m.hrt.lim.draw m.hrt.frames.rate = true) :
    (oneBeat c st rn dfuel m).2 = Ev.frame (st.add
        (st.mul m.pre (1 - Timer.div m.iter (c (m.idx + 3)) m.hrt.tar))
        (st.mul m.cur (Timer.div m.iter (c (m.idx + 3)) m.hrt.tar))) ::
      (secPhase c st (renderPhase c st rn (drain c st dfuel m).1).1).2 := by
  obtain ⟨d, rfl⟩ : ∃ d, dfuel = d + 1 := ⟨dfuel - 1, by omega⟩
  have hcond : ¬ m.hrt.tar ≤
      Timer.elapsed (Mach.iter { m with idx := m.idx + 1 }) (c m.idx) := hno
  have hd : drain c st (d + 1) m = ({ m with idx := m.idx + 1 }, []) := by
    simp only [drain, if_neg hcond]
  have hr := (renderPhase_pos c st rn { m with idx := m.idx + 1 } hdraw).1
  show (drain c st (d + 1) m).2 ++
      (renderPhase c st rn (drain c st (d + 1) m).1).2 ++
      (secPhase c st (renderPhase c st rn (drain c st (d + 1) m).1).1).2 = _
  rw [hd]
  rw [show (({ m with idx := m.idx + 1 }, ([] : List (Ev U))) :
      Mach U V × List (Ev U)).1 = { m with idx := m.idx + 1 } from rfl]
  rw [hr]
  rfl

/-- C10: starting an idle heart whose policy permits a render, under a clock
that has not yet advanced one target duration when the first beat checks
the drain condition, performs a render before any `update` has ever run,
and the snapshot handed to the render hook blends the default-constructed
state: it is `default * (1 - rem) + cur * rem`, where `cur` is the state
produced by `init` from the default and `rem` is the remainder read. -/
theorem pre_default_first_render {U V : Type} (c : ℕ → ℚ) (st : Stt U)
    (rn : RenderC U V) (dfuel lfuel : ℕ) (s : HrtS) (idx : ℕ)
    (hb : s.beat = false)
    (hstop : (st.init st.dflt { s with beat := true }
      (Timer.new (c idx))).2.1 = false)
    (hdraw : ((st.init st.dflt { s with beat := true }
      (Timer.new (c idx))).2.2.getD s.lim).draw s.frames.rate = true)
    (hnod : ¬ s.tar ≤ c (idx + 3) - c (idx + 2))
    (hdf : 0 < dfuel) (hlf : 0 < lfuel) :
    (startLog (startFn c st rn dfuel lfuel s idx)).head? =
      some (Ev.frame (st.add
        (st.mul st.dflt (1 - (c (idx + 6) - c (idx + 2)) / s.tar))
        (st.mul (st.init st.dflt { s with beat := true }
            (Timer.new (c idx))).1
          ((c (idx + 6) - c (idx + 2)) / s.tar)))) := by
  obtain ⟨l, rfl⟩ : ∃ l, lfuel = l + 1 := ⟨lfuel - 1, by omega⟩
  have hok : startFn c st rn dfuel (l + 1) s idx =
      .ok (beatLoop c st rn dfuel (l + 1)
        (beatEntry c st
          (applyInit st.init st.dflt { s with beat := true }
            (Timer.new (c idx))).2
          (applyInit st.init st.dflt { s with beat := true }
            (Timer.new (c idx))).1
          rn.dflt (idx + 1))) := by
    rw [startFn, if_neg (by simp [hb])]
  rw [hok]
  simp only [startLog]
  have hbt : (beatEntry c st
      (applyInit st.init st.dflt { s with beat := true }
        (Timer.new (c idx))).2
      (applyInit st.init st.dflt { s with beat := true }
        (Timer.new (c idx))).1
      rn.dflt (idx + 1)).hrt.beat = true := by
    simp [beatEntry, applyInit, hstop]
  rw [beatLoop, if_pos hbt]
  show ((oneBeat c st rn dfuel (beatEntry c st
      (applyInit st.init st.dflt { s with beat := true }
        (Timer.new (c idx))).2
      (applyInit st.init st.dflt { s with beat := true }
        (Timer.new (c idx))).1
      rn.dflt (idx + 1))).2 ++ _).head? = _
  rw [oneBeat_no_drain_render c st rn dfuel _ hnod hdf hdraw]
  rfl

/-- C10 witness: an idle heart with target rate 1 and a clock frozen at 0
renders in its first beat, before any update, the blend of the default
state with the post-init state at remainder 0. -/
theorem pre_default_first_render_witness :
    (startLog (startFn (fun _ => (0 : ℚ)) stU rnU 1 1 (HrtS.new 1) 0)).head? =
      some (Ev.frame (stU.add
        (stU.mul stU.dflt (1 - ((0 : ℚ) - 0) / (HrtS.new 1).tar))
        (stU.mul (stU.init stU.dflt { HrtS.new 1 with beat := true }
            (Timer.new 0)).1 (((0 : ℚ) - 0) / (HrtS.new 1).tar)))) :=
  pre_default_first_render (fun _ => (0 : ℚ)) stU rnU 1 1 (HrtS.new 1) 0
    rfl rfl (by norm_num [stU, HrtS.new, Lim.dflt, Lim.draw, Stat.new])
    (by norm_num [HrtS.new, Timer.new]) one_pos one_pos

theorem drain_countP_frame {U V : Type} (c : ℕ → ℚ) (st : Stt U) (fuel : ℕ)
    (m : Mach U V) : (drain c st fuel m).2.countP Ev.isFrame = 0 := by
  rw [List.countP_eq_zero]
  intro e he
  rw [(drain_keeps c st fuel m).2.2.2 e he]
  simp [Ev.isFrame]

theorem secPhase_countP_frame {U V : Type} (c : ℕ → ℚ) (st : Stt U)
    (m : Mach U V) : (secPhase c st m).2.countP Ev.isFrame = 0 := by
  rcases (secPhase_keeps c st m).2 with h | h <;> rw [h] <;> rfl

theorem drain_stops {U V : Type} (c : ℕ → ℚ) (st : Stt U) (fuel : ℕ)
    (m : Mach U V) (hstop : ∀ u s2, (st.update u s2).2.1 = true)
    (hcond : m.hrt.tar ≤ Timer.elapsed m.iter (c m.idx)) (hf : 0 < fuel) :
    (drain c st fuel m).1.hrt.beat = false := by
  obtain ⟨f, rfl⟩ : ∃ f, fuel = f + 1 := ⟨fuel - 1, by omega⟩
  have hcond2 : m.hrt.tar ≤
      Timer.elapsed (Mach.iter { m with idx := m.idx + 1 }) (c m.idx) := hcond
  simp only [drain, if_pos hcond2]
  exact drain_beat_false c st f _ (drainBody_stops c st _ hstop)

/-- C4: when every `update` invocation calls `stop()`, a beat whose drain
runs at least one iteration (clock frozen at `t`, exactly `k >= 1` target
durations plus a sub-tick remainder past the iteration reference) still
completes in full: the running flag is clear afterwards, the whole loop
with any further fuel performs exactly this one beat and no more, the beat
still renders exactly once if the policy permits it after the drain, and
the per-second hook and refresh still run if the one-second stopwatch has
matured. -/
theorem stop_finishes_beat {U V : Type} (c : ℕ → ℚ) (st : Stt U)
    (rn : RenderC U V) (dfuel lfuel : ℕ) (m : Mach U V) (t r : ℚ) (k : ℕ)
    (hstop : ∀ u s2, (st.update u s2).2.1 = true)
    (hbeat : m.hrt.beat = true)
    (hc : ∀ j, c j = t) (htar : 0 < m.hrt.tar)
    (hadv : t - m.iter.start = k * m.hrt.tar + r) (hr0 : 0 ≤ r)
    (hr1 : r < m.hrt.tar) (hk : 1 ≤ k) (hfuel : k < dfuel) :
    (oneBeat c st rn dfuel m).1.hrt.beat = false ∧
    beatLoop c st rn dfuel (lfuel + 1) m = oneBeat c st rn dfuel m ∧
    ((drain c st dfuel m).1.hrt.lim.draw
        (drain c st dfuel m).1.hrt.frames.rate = true →
      (oneBeat c st rn dfuel m).2.countP Ev.isFrame = 1) ∧
    (Sec.ONE ≤ Timer.elapsed m.sec t →
      Ev.secEv ∈ (oneBeat c st rn dfuel m).2 ∧
      Ev.refreshEv ∈ (oneBeat c st rn dfuel m).2) := by
  have hcond : m.hrt.tar ≤ Timer.elapsed m.iter (c m.idx) := by
    rw [hc]
    show m.hrt.tar ≤ t - m.iter.start
    have hk1 : (1 : ℚ) ≤ (k : ℚ) := by exact_mod_cast hk
    have hkt : (0 : ℚ) ≤ ((k : ℚ) - 1) * m.hrt.tar :=
      mul_nonneg (by linarith) htar.le
    nlinarith [hadv, hr0, hkt]
  have hdbeat : (drain c st dfuel m).1.hrt.beat = false :=
    drain_stops c st dfuel m hstop hcond (by omega)
  have ha : (oneBeat c st rn dfuel m).1.hrt.beat = false := by
    show (secPhase c st (renderPhase c st rn (drain c st dfuel m).1).1).1.hrt.beat
      = false
    apply secPhase_beat_false
    rw [(renderPhase_keeps c st rn (drain c st dfuel m).1).2.2.1]
    exact hdbeat
  have hlog2 : (oneBeat c st rn dfuel m).2 =
      (drain c st dfuel m).2 ++
        ((renderPhase c st rn (drain c st dfuel m).1).2 ++
          (secPhase c st (renderPhase c st rn (drain c st dfuel m).1).1).2) := by
    show (drain c st dfuel m).2 ++ (renderPhase c st rn (drain c st dfuel m).1).2 ++
        (secPhase c st (renderPhase c st rn (drain c st dfuel m).1).1).2 = _
    rw [List.append_assoc]
  refine ⟨ha, ?_, ?_, ?_⟩
  · rw [beatLoop, if_pos hbeat]
    show ((beatLoop c st rn dfuel lfuel (oneBeat c st rn dfuel m).1).1,
        (oneBeat c st rn dfuel m).2 ++
          (beatLoop c st rn dfuel lfuel (oneBeat c st rn dfuel m).1).2) = _
    rw [beatLoop_not_beat c st rn dfuel lfuel _ ha]
    rw [List.append_nil]
  · intro hdraw
    rw [hlog2, List.countP_append, List.countP_append, drain_countP_frame,
      (renderPhase_pos c st rn (drain c st dfuel m).1 hdraw).1,
      secPhase_countP_frame]
    rfl
  · intro hsec
    have hsec2 : Sec.ONE ≤ Timer.elapsed
        (Mach.sec (renderPhase c st rn (drain c st dfuel m).1).1)
        (c (Mach.idx (renderPhase c st rn (drain c st dfuel m).1).1)) := by
      rw [hc, (renderPhase_keeps c st rn (drain c st dfuel m).1).2.1,
        (drain_keeps c st dfuel m).2.2.1]
      exact hsec
    have hsl := secPhase_pos c st
      (renderPhase c st rn (drain c st dfuel m).1).1 hsec2
    rw [hlog2, hsl]
    constructor <;> simp

/-- State capability whose `update` hook calls `stop()`; the other hooks are
inert. -/
def stS : Stt Unit :=
  { dflt := (), add := fun _ _ => (), mul := fun _ _ => ()
    init := fun _ _ _ => ((), false, none)
    update := fun _ _ => ((), true, none)
    sech := fun _ _ => ((), false, none) }

/-- C4 witness: the theorem evaluated with a stopping update hook, a clock
frozen at 3, target duration 1 (three drain iterations), and five units of
extra loop fuel. -/
theorem stop_finishes_beat_witness :
    (oneBeat (fun _ => (3 : ℚ)) stS rnU 4 mU).1.hrt.beat = false ∧
    beatLoop (fun _ => (3 : ℚ)) stS rnU 4 (5 + 1) mU =
      oneBeat (fun _ => (3 : ℚ)) stS rnU 4 mU ∧
    ((drain (fun _ => (3 : ℚ)) stS 4 mU).1.hrt.lim.draw
        (drain (fun _ => (3 : ℚ)) stS 4 mU).1.hrt.frames.rate = true →
      (oneBeat (fun _ => (3 : ℚ)) stS rnU 4 mU).2.countP Ev.isFrame = 1) ∧
    (Sec.ONE ≤ Timer.elapsed mU.sec 3 →
      Ev.secEv ∈ (oneBeat (fun _ => (3 : ℚ)) stS rnU 4 mU).2 ∧
      Ev.refreshEv ∈ (oneBeat (fun _ => (3 : ℚ)) stS rnU 4 mU).2) :=
  stop_finishes_beat (fun _ => (3 : ℚ)) stS rnU 4 5 mU 3 0 3
    (fun _ _ => rfl) rfl (fun _ => rfl) (by norm_num [mU])
    (by norm_num [mU, Timer.new]) le_rfl (by norm_num [mU]) (by norm_num)
    (by norm_num)

/-- C5: calling `start` on a running heart yields the fatal panic path with
the diagnostic `Already running!` (modelled as `Except.error`), never a
recoverable value; on an idle heart it sets the running flag,
default-constructs the state and the renderer, invokes `init` on the
default state with a stopwatch capturing a fresh clock reading, and enters
the beat loop on a machine whose previous-state snapshot is the default
state and whose per-second and iteration stopwatches capture the next two
readings; the flag stays set into the loop whenever `init` itself did not
call `stop()`. -/
theorem start_contract {U V : Type} (c : ℕ → ℚ) (st : Stt U)
    (rn : RenderC U V) (dfuel lfuel : ℕ) (s : HrtS) (idx : ℕ) :
    (s.beat = true →
      startFn c st rn dfuel lfuel s idx (U := U) (V := V) =
        .error "Already running!") ∧
    (s.beat = false →
      startFn c st rn dfuel lfuel s idx =
        .ok (beatLoop c st rn dfuel lfuel (beatEntry c st
          (applyInit st.init st.dflt { s with beat := true }
            (Timer.new (c idx))).2
          (applyInit st.init st.dflt { s with beat := true }
            (Timer.new (c idx))).1 rn.dflt (idx + 1))) ∧
      (beatEntry c st
          (applyInit st.init st.dflt { s with beat := true }
            (Timer.new (c idx))).2
          (applyInit st.init st.dflt { s with beat := true }
            (Timer.new (c idx))).1 rn.dflt (idx + 1)).pre = st.dflt ∧
      (beatEntry c st
          (applyInit st.init st.dflt { s with beat := true }
            (Timer.new (c idx))).2
          (applyInit st.init st.dflt { s with beat := true }
            (Timer.new (c idx))).1 rn.dflt (idx + 1)).ren = rn.dflt ∧
      (beatEntry c st
          (applyInit st.init st.dflt { s with beat := true }
            (Timer.new (c idx))).2
          (applyInit st.init st.dflt { s with beat := true }
            (Timer.new (c idx))).1 rn.dflt (idx + 1)).cur =
        (st.init st.dflt { s with beat := true } (Timer.new (c idx))).1 ∧
      (beatEntry c st
          (applyInit st.init st.dflt { s with beat := true }
            (Timer.new (c idx))).2
          (applyInit st.init st.dflt { s with beat := true }
            (Timer.new (c idx))).1 rn.dflt (idx + 1)).sec =
        Timer.new (c (idx + 1)) ∧
      (beatEntry c st
          (applyInit st.init st.dflt { s with beat := true }
            (Timer.new (c idx))).2
          (applyInit st.init st.dflt { s with beat := true }
            (Timer.new (c idx))).1 rn.dflt (idx + 1)).iter =
        Timer.new (c (idx + 2)) ∧
      ((st.init st.dflt { s with beat := true } (Timer.new (c idx))).2.1 =
          false →
        (beatEntry c st
            (applyInit st.init st.dflt { s with beat := true }
              (Timer.new (c idx))).2
            (applyInit st.init st.dflt { s with beat := true }
              (Timer.new (c idx))).1 rn.dflt (idx + 1)).hrt.beat = true)) := by
  constructor
  · intro hb
    rw [startFn, if_pos hb]
  · intro hb
    refine ⟨?_, rfl, rfl, rfl, rfl, rfl, ?_⟩
    · rw [startFn, if_neg (by simp [hb])]
    · intro hstop
      simp [beatEntry, applyInit, hstop]

/-- C5 witness: the running branch panics and the idle branch enters the
loop with the running flag set, evaluated on a heart made by `new` with
target rate 1 under a clock frozen at 0. -/
theorem start_contract_witness :
    startFn (fun _ => (0 : ℚ)) stU rnU 1 1
      { HrtS.new 1 with beat := true } 0 = .error "Already running!" ∧
    startFn (fun _ => (0 : ℚ)) stU rnU 1 1 (HrtS.new 1) 0 =
      .ok (beatLoop (fun _ => (0 : ℚ)) stU rnU 1 1
        (beatEntry (fun _ => (0 : ℚ)) stU
          (applyInit stU.init stU.dflt { HrtS.new 1 with beat := true }
            (Timer.new 0)).2
          (applyInit stU.init stU.dflt { HrtS.new 1 with beat := true }
            (Timer.new 0)).1 rnU.dflt 1)) ∧
    (beatEntry (fun _ => (0 : ℚ)) stU
        (applyInit stU.init stU.dflt { HrtS.new 1 with beat := true }
          (Timer.new 0)).2
        (applyInit stU.init stU.dflt { HrtS.new 1 with beat := true }
          (Timer.new 0)).1 rnU.dflt 1).hrt.beat = true :=
  ⟨(start_contract (fun _ => (0 : ℚ)) stU rnU 1 1
      { HrtS.new 1 with beat := true } 0).1 rfl,
    ((start_contract (fun _ => (0 : ℚ)) stU rnU 1 1 (HrtS.new 1) 0).2 rfl).1,
    ((start_contract (fun _ => (0 : ℚ)) stU rnU 1 1
      (HrtS.new 1) 0).2 rfl).2.2.2.2.2.2 rfl⟩

/-- Scanner over a run log: walking the events with `r` the number of frames
rendered since the last refresh, it reports `false` as soon as a frame
occurs while `r` is nonzero.  A `true` result is exactly "at most one
render per statistics cycle". -/
def scanOnce {U : Type} : ℕ → List (Ev U) → Bool
  | _, [] => true
  | _, .refreshEv :: l => scanOnce 0 l
  | r, .frame _ :: l => decide (r = 0) && scanOnce (r + 1) l
  | r, .tick :: l => scanOnce r l
  | r, .secEv :: l => scanOnce r l

/-- Number of frames since the last refresh after scanning a log from `r`. -/
def scanRate {U : Type} : ℕ → List (Ev U) → ℕ
  | r, [] => r
  | _, .refreshEv :: l => scanRate 0 l
  | r, .frame _ :: l => scanRate (r + 1) l
  | r, .tick :: l => scanRate r l
  | r, .secEv :: l => scanRate r l

theorem scanRate_append {U : Type} (a b : List (Ev U)) : ∀ r,
    scanRate r (a ++ b) = scanRate (scanRate r a) b := by
  induction a with
  | nil => intro r; rfl
  | cons e l ih => intro r; cases e <;> simp [scanRate, ih]

theorem scanOnce_append {U : Type} (a b : List (Ev U)) : ∀ r,
    scanOnce r (a ++ b) = (scanOnce r a && scanOnce (scanRate r a) b) := by
  induction a with
  | nil => intro r; rfl
  | cons e l ih =>
    intro r
    cases e <;> simp [scanOnce, scanRate, ih, Bool.and_assoc]

theorem scanOnce_ticks {U : Type} (l : List (Ev U))
    (h : ∀ e ∈ l, e = Ev.tick) :
    ∀ r, scanOnce r l = true ∧ scanRate r l = r := by
  induction l with
  | nil => intro r; exact ⟨rfl, rfl⟩
  | cons e t ih =>
    intro r
    have he : e = Ev.tick := h e (by simp)
    subst he
    have ht := ih (fun e he2 => h e (List.mem_cons_of_mem _ he2)) r
    simpa [scanOnce, scanRate] using ht

theorem drain_lim {U V : Type} (c : ℕ → ℚ) (st : Stt U) (fuel : ℕ)
    (m : Mach U V) (hup : ∀ u s2, (st.update u s2).2.2 = none) :
    (drain c st fuel m).1.hrt.lim = m.hrt.lim := by
  induction fuel generalizing m with
  | zero => rfl
  | succ fuel ih =>
    by_cases hcond :
        m.hrt.tar ≤ Timer.elapsed (Mach.iter { m with idx := m.idx + 1 }) (c m.idx)
    · simp only [drain, if_pos hcond]
      rw [ih (drainBody c st { m with idx := m.idx + 1 })]
      show (applyHook st.update _ _).2.lim = m.hrt.lim
      simp [applyHook, hup]
    · simp [drain, if_neg hcond]

theorem renderPhase_scan {U V : Type} (c : ℕ → ℚ) (st : Stt U)
    (rn : RenderC U V) (m : Mach U V) (hlim : m.hrt.lim = Lim.once) :
    (renderPhase c st rn m).1.hrt.lim = Lim.once ∧
    scanOnce m.hrt.frames.rate (renderPhase c st rn m).2 = true ∧
    (renderPhase c st rn m).1.hrt.frames.rate =
      scanRate m.hrt.frames.rate (renderPhase c st rn m).2 := by
  refine ⟨by rw [(renderPhase_keeps c st rn m).2.2.2.1, hlim], ?_⟩
  by_cases hr : m.hrt.frames.rate = 0
  · have hdraw : m.hrt.lim.draw m.hrt.frames.rate = true := by
      rw [hlim, hr]
      rfl
    obtain ⟨hl, hf⟩ := renderPhase_pos c st rn m hdraw
    constructor
    · rw [hl, hr]
      rfl
    · rw [hl, hf]
      show (m.hrt.frames.rate + 1) % u64M = _
      rw [hr]
      norm_num [u64M, scanRate]
  · have hdraw : m.hrt.lim.draw m.hrt.frames.rate = false := by
      rw [hlim]
      simp [Lim.draw, hr]
    obtain ⟨hl, hf⟩ := renderPhase_neg c st rn m hdraw
    constructor
    · rw [hl]
      rfl
    · rw [hl]
      show (renderPhase c st rn m).1.hrt.frames.rate = m.hrt.frames.rate
      rw [hf]

theorem secPhase_scan {U V : Type} (c : ℕ → ℚ) (st : Stt U) (m : Mach U V)
    (hsec : ∀ u s2, (st.sech u s2).2.2 = none)
    (hlim : m.hrt.lim = Lim.once) :
    (secPhase c st m).1.hrt.lim = Lim.once ∧
    scanOnce m.hrt.frames.rate (secPhase c st m).2 = true ∧
    (secPhase c st m).1.hrt.frames.rate =
      scanRate m.hrt.frames.rate (secPhase c st m).2 := by
  simp only [secPhase]
  split
  · refine ⟨?_, rfl, rfl⟩
    show (applyHook st.sech _ _).2.lim = Lim.once
    simp [applyHook, hsec]
    exact hlim
  · exact ⟨hlim, rfl, rfl⟩

theorem oneBeat_log {U V : Type} (c : ℕ → ℚ) (st : Stt U) (rn : RenderC U V)
    (dfuel : ℕ) (m : Mach U V) :
    (oneBeat c st rn dfuel m).2 =
      (drain c st dfuel m).2 ++
        ((renderPhase c st rn (drain c st dfuel m).1).2 ++
          (secPhase c st (renderPhase c st rn (drain c st dfuel m).1).1).2) := by
  show (drain c st dfuel m).2 ++ (renderPhase c st rn (drain c st dfuel m).1).2 ++
      (secPhase c st (renderPhase c st rn (drain c st dfuel m).1).1).2 = _
  rw [List.append_assoc]

theorem oneBeat_scan {U V : Type} (c : ℕ → ℚ) (st : Stt U) (rn : RenderC U V)
    (dfuel : ℕ) (m : Mach U V)
    (hup : ∀ u s2, (st.update u s2).2.2 = none)
    (hsec : ∀ u s2, (st.sech u s2).2.2 = none)
    (hlim : m.hrt.lim = Lim.once) :
    (oneBeat c st rn dfuel m).1.hrt.lim = Lim.once ∧
    scanOnce m.hrt.frames.rate (oneBeat c st rn dfuel m).2 = true ∧
    (oneBeat c st rn dfuel m).1.hrt.frames.rate =
      scanRate m.hrt.frames.rate (oneBeat c st rn dfuel m).2 := by
  have hd := drain_keeps c st dfuel m
  have hdlim : (drain c st dfuel m).1.hrt.lim = Lim.once := by
    rw [drain_lim c st dfuel m hup]
    exact hlim
  have hdscan := scanOnce_ticks (drain c st dfuel m).2 hd.2.2.2
    m.hrt.frames.rate
  obtain ⟨hr1, hr2, hr3⟩ :=
    renderPhase_scan c st rn (drain c st dfuel m).1 hdlim
  obtain ⟨hs1, hs2, hs3⟩ := secPhase_scan c st
    (renderPhase c st rn (drain c st dfuel m).1).1 hsec hr1
  have hfr : (drain c st dfuel m).1.hrt.frames.rate = m.hrt.frames.rate := by
    rw [hd.2.1]
  refine ⟨?_, ?_, ?_⟩
  · show (secPhase c st (renderPhase c st rn (drain c st dfuel m).1).1).1.hrt.lim
      = Lim.once
    exact hs1
  · rw [oneBeat_log, scanOnce_append, hdscan.1, hdscan.2, scanOnce_append]
    rw [← hfr] at *
    rw [hr2, ← hr3, hs2]
    rfl
  · show (secPhase c st (renderPhase c st rn (drain c st dfuel m).1).1).1.hrt.frames.rate = _
    rw [oneBeat_log, scanRate_append, hdscan.2, scanRate_append, ← hfr, ← hr3, hs3]

theorem beatLoop_scan {U V : Type} (c : ℕ → ℚ) (st : Stt U)
    (rn : RenderC U V) (dfuel lfuel : ℕ) (m : Mach U V)
    (hup : ∀ u s2, (st.update u s2).2.2 = none)
    (hsec : ∀ u s2, (st.sech u s2).2.2 = none)
    (hlim : m.hrt.lim = Lim.once) :
    scanOnce m.hrt.frames.rate (beatLoop c st rn dfuel lfuel m).2 = true := by
  induction lfuel generalizing m with
  | zero => rfl
  | succ lfuel ih =>
    by_cases hb : m.hrt.beat = true
    · obtain ⟨h1, h2, h3⟩ := oneBeat_scan c st rn dfuel m hup hsec hlim
      have h5 := ih (oneBeat c st rn dfuel m).1 h1
      simp only [beatLoop, if_pos hb]
      rw [scanOnce_append, h2, ← h3, h5]
      rfl
    · rw [beatLoop, if_neg hb]
      rfl

/-- C7 (amended): under the render-at-most-once policy, with hooks that do
not change the policy, a beat renders exactly when the rate the policy
consults is zero — and that rate is the CURRENT cycle's frame count so far
(the `rate` field, which `refresh` resets to zero), not the previous
completed cycle's count; consequently every run of the loop renders at
most once per statistics cycle: scanning the run's event log, no frame
event ever occurs while the number of frames since the last refresh event
is nonzero. -/
theorem once_at_most_one_render_per_cycle {U V : Type} (c : ℕ → ℚ)
    (st : Stt U) (rn : RenderC U V) (dfuel lfuel : ℕ) (m : Mach U V)
    (hup : ∀ u s2, (st.update u s2).2.2 = none)
    (hsec : ∀ u s2, (st.sech u s2).2.2 = none)
    (hlim : m.hrt.lim = Lim.once) :
    ((oneBeat c st rn dfuel m).2.countP Ev.isFrame = 1 ↔
      m.hrt.frames.rate = 0) ∧
    scanOnce m.hrt.frames.rate (beatLoop c st rn dfuel lfuel m).2 = true := by
  have hdlim : (drain c st dfuel m).1.hrt.lim = Lim.once := by
    rw [drain_lim c st dfuel m hup]
    exact hlim
  have hfr : (drain c st dfuel m).1.hrt.frames = m.hrt.frames :=
    (drain_keeps c st dfuel m).2.1
  constructor
  · rw [oneBeat_log, List.countP_append, List.countP_append,
      drain_countP_frame, secPhase_countP_frame]
    by_cases hr : m.hrt.frames.rate = 0
    · have hdraw : (drain c st dfuel m).1.hrt.lim.draw
          (drain c st dfuel m).1.hrt.frames.rate = true := by
        rw [hdlim, hfr, hr]
        rfl
      rw [(renderPhase_pos c st rn (drain c st dfuel m).1 hdraw).1]
      simp [hr, List.countP_cons, Ev.isFrame]
    · have hdraw : (drain c st dfuel m).1.hrt.lim.draw
          (drain c st dfuel m).1.hrt.frames.rate = false := by
        rw [hdlim, hfr]
        simp [Lim.draw, hr]
      rw [(renderPhase_neg c st rn (drain c st dfuel m).1 hdraw).1]
      simp [hr]
  · exact beatLoop_scan c st rn dfuel lfuel m hup hsec hlim

/-- Machine with the render-at-most-once policy, target duration 1, both
stopwatch references at 0, and clean statistics. -/
def mO : Mach Unit Unit :=
  { hrt := { beat := true, lim := Lim.once, tar := 1,
             ticks := Stat.new, frames := Stat.new }
    cur := (), pre := (), ren := ()
    sec := Timer.new 0, iter := Timer.new 0, idx := 0 }

/-- C7 witness: the amended statement evaluated under a clock frozen at 0
with clean frame statistics and two beats of loop fuel. -/
theorem once_at_most_one_render_per_cycle_witness :
    ((oneBeat (fun _ => (0 : ℚ)) stU rnU 1 mO).2.countP Ev.isFrame = 1 ↔
      mO.hrt.frames.rate = 0) ∧
    scanOnce mO.hrt.frames.rate
      (beatLoop (fun _ => (0 : ℚ)) stU rnU 1 2 mO).2 = true :=
  once_at_most_one_render_per_cycle (fun _ => (0 : ℚ)) stU rnU 1 2 mO
    (fun _ _ => rfl) (fun _ _ => rfl) rfl

/-- Frame count of the last completed statistics cycle of a log: the number
of frame events between the final two refresh events (`prev` carries the
last closed cycle's count, `cu` the open cycle's). -/
def prevCycleGo {U : Type} : ℕ → ℕ → List (Ev U) → ℕ
  | prev, _, [] => prev
  | _, cu, .refreshEv :: l => prevCycleGo cu 0 l
  | prev, cu, .frame _ :: l => prevCycleGo prev (cu + 1) l
  | prev, cu, .tick :: l => prevCycleGo prev cu l
  | prev, cu, .secEv :: l => prevCycleGo prev cu l

/-- Frame count of the last completed statistics cycle of a log. -/
def prevCycleFrames {U : Type} (l : List (Ev U)) : ℕ := prevCycleGo 0 0 l

/-- Clock for the previous-cycle counterexample: 1 for the first four reads,
2 afterwards, so the per-second stopwatch matures in both beats while the
drain (target 5) never fires. -/
def cC : ℕ → ℚ := fun j => if j ≤ 3 then 1 else 2

/-- Machine for the previous-cycle counterexample: Once policy, target
duration 5, clean statistics, both stopwatch references at 0. -/
def mC : Mach Unit Unit :=
  { hrt := { beat := true, lim := Lim.once, tar := 5,
             ticks := Stat.new, frames := Stat.new }
    cur := (), pre := (), ren := ()
    sec := Timer.new 0, iter := Timer.new 0, idx := 0 }

/-- C7 counterexample: a two-beat run under the Once policy renders in both
beats, with one refresh in between.  Before the second render the previous
COMPLETED cycle's frame count is 1, so a policy consulting the previous
cycle's count would skip that render; the code renders because it consults
the current cycle's count, which the refresh just reset to zero. -/
theorem once_prev_cycle_counterexample :
    (beatLoop cC stU rnU 1 2 mC).2 =
      [Ev.frame (), Ev.secEv, Ev.refreshEv,
        Ev.frame (), Ev.secEv, Ev.refreshEv] ∧
    prevCycleFrames [Ev.frame (), Ev.secEv, Ev.refreshEv] = 1 := by
  constructor
  · norm_num [beatLoop, oneBeat, drain, drainBody, renderPhase, secPhase,
      cC, stU, rnU, mC, Timer.new, Timer.elapsed, Timer.div, Timer.sub_assign,
      Lim.draw, Stat.new, Stat.refresh, Prf.create, Prf.drop, Stat.add_assign,
      applyHook, Sec.ONE, Sec.ZERO, u64M]
  · rfl
